import Mathlib

/-!
Verification of the hierarchical memory-accounting core of Impala's
`MemTracker` (src/be/src/runtime/mem-tracker.h).

Shallow embedding notes:
* Machine `int64_t` values are modelled as unbounded `Int`: signed overflow is
  undefined behaviour in C++, so the source implicitly assumes arithmetic does
  not overflow, and the embedding follows that assumption.
* A tracker's identity is a `Nat`; the mutable world is the function
  `State : Nat → Counter` mapping each tracker id to its counter. The
  immutable per-tracker data (`limit_`, `all_trackers_`, `gc_functions_`,
  `consumption_metric_`, whether `bytes_over_limit_metric_` is bound) lives in
  an environment `Env : Nat → TrackerCfg`.
* GC callbacks (`GcFunction`, `boost::function<void()>` closures that mutate
  tracker counters, typically via `Release`) are modelled as arbitrary state
  transformers `State → State`.
* `DCHECK`s are debug-build assertions with no release-build effect; the
  embedding models the release behaviour. `enable_logging_` / `LogUpdate`
  only write to the log sink and are omitted.
-/

namespace Impala

/-- Modelled from the spec: the body of `RuntimeProfile::HighWaterMarkCounter`
(util/runtime-profile.h) is not under src/. Per spec §4.1 a Counter holds an
atomic current value and an atomic peak value; peak is updated monotonically
to `max(peak, current)` after each change. `current_value()` reads `current`,
`value()` reads the high-water mark. -/
structure Counter where
  current : Int
  peak : Int
deriving DecidableEq

/-- Modelled from the spec: `set(v)`: assign `current := v` and update peak. -/
def Counter.set (c : Counter) (v : Int) : Counter :=
  ⟨v, max c.peak v⟩

/-- Modelled from the spec: `update(delta)`: `current += delta`; update peak. -/
def Counter.update (c : Counter) (d : Int) : Counter :=
  ⟨c.current + d, max c.peak (c.current + d)⟩

/-- Modelled from the spec: `try_update(delta, cap)`: atomically apply
`current += delta` iff the resulting `current ≤ cap`; report whether the
update was applied. `some` carries the updated counter. -/
def Counter.tryUpdate (c : Counter) (d cap : Int) : Option Counter :=
  if c.current + d ≤ cap then some (c.update d) else none

/-- The mutable world: every tracker id's counter. -/
abbrev State := Nat → Counter

/-- A GC callback (`MemTracker::GcFunction`): an arbitrary mutation of
tracker counters. -/
abbrev GcFn := State → State

/-- The immutable fields of one `MemTracker`:
`limit_` (`< 0`: no limit), `all_trackers_` (this tracker plus all of its
ancestors, self first), `gc_functions_`, `consumption_metric_` (modelled as
the sample the external metric currently reports), and whether
`bytes_over_limit_metric_` is bound. -/
structure TrackerCfg where
  limit : Int
  all_trackers : List Nat
  gc_functions : List GcFn
  consumption_metric : Option Int
  has_bytes_over_limit_metric : Bool

/-- The forest of trackers: per-id immutable configuration. -/
abbrev Env := Nat → TrackerCfg

/-- Functional update of one tracker's counter. -/
def updAt (s : State) (i : Nat) (f : Counter → Counter) : State :=
  fun j => if j = i then f (s j) else s j

/-- `consumption()`: `consumption_->current_value()`. -/
def consumption (s : State) (t : Nat) : Int := (s t).current

/-- `peak_consumption()`: `consumption_->value()`, the high-water mark. -/
def peak_consumption (s : State) (t : Nat) : Int := (s t).peak

/-- The `Update(bytes)` loop over a list of tracker ids, as in the bodies of
`Consume` and `Release`. -/
def updateAll (ids : List Nat) (d : Int) (s : State) : State :=
  ids.foldl (fun s i => updAt s i (fun c => c.update d)) s

/-- `MemTracker::Consume(bytes)` (mem-tracker.h:94-107): if
`consumption_metric_ != NULL`, set the counter to the metric sample and
return; if `bytes == 0` return; otherwise `Update(bytes)` on every tracker in
`all_trackers_`. -/
def Consume (env : Env) (t : Nat) (bytes : Int) (s : State) : State :=
  match (env t).consumption_metric with
  | some m => updAt s t (fun c => c.set m)
  | none =>
    if bytes = 0 then s
    else updateAll (env t).all_trackers bytes s

/-- `MemTracker::Release(bytes)` (mem-tracker.h:148-161): symmetric to
`Consume`, applying `Update(-bytes)`. -/
def Release (env : Env) (t : Nat) (bytes : Int) (s : State) : State :=
  match (env t).consumption_metric with
  | some m => updAt s t (fun c => c.set m)
  | none =>
    if bytes = 0 then s
    else updateAll (env t).all_trackers (-bytes) s

/-- The callback loop inside `GcMemory`: invoke each callback in registration
order, stopping early once `consumption ≤ target`. -/
def runGcFunctions (t : Nat) (target : Int) : List GcFn → State → State
  | [], s => s
  | f :: fns, s =>
    let s' := f s
    if (s' t).current ≤ target then s' else runGcFunctions t target fns s'

/-- Modelled from the spec: the body of `MemTracker::GcMemory` is in
mem-tracker.cc, which is not under src/. Per spec §4.3: sample `consumption`;
if greater than `target`, invoke each callback in registration order,
stopping early if `consumption ≤ target`; return whether `consumption` still
exceeds `target`. (The GC lock only serializes concurrent GCs and metric
publication is write-only; neither affects the sequential counter
semantics.) -/
def GcMemory (env : Env) (t : Nat) (target : Int) (s : State) : Bool × State :=
  if (s t).current ≤ target then (false, s)
  else
    let s' := runGcFunctions t target (env t).gc_functions s
    (decide (target < (s' t).current), s')

/-- One iteration of the `TryConsume` walk (mem-tracker.h:118-132) at tracker
`i`: unlimited trackers get an unconditional `Update(bytes)`; limited trackers
attempt `TryUpdate(bytes, limit_)`, and on failure run
`GcMemory(limit_ - bytes)` followed by one `TryUpdate` retry, failing if
either fails. -/
def tryConsumeStep (env : Env) (i : Nat) (bytes : Int) (s : State) : Bool × State :=
  if (env i).limit < 0 then
    (true, updAt s i (fun c => c.update bytes))
  else
    match (s i).tryUpdate bytes (env i).limit with
    | some c => (true, updAt s i (fun _ => c))
    | none =>
      let g := GcMemory env i ((env i).limit - bytes) s
      if g.1 then (false, g.2)
      else
        match (g.2 i).tryUpdate bytes (env i).limit with
        | some c => (true, updAt g.2 i (fun _ => c))
        | none => (false, g.2)

/-- The `TryConsume` walk over `all_trackers_` with rollback
(mem-tracker.h:117-144): `done` is the already-charged prefix `0..i-1`; on a
step failure roll back every tracker in `done` with `Update(-bytes)` and
report rejection. -/
def tryConsumeLoop (env : Env) (bytes : Int) : List Nat → List Nat → State → Bool × State
  | _done, [], s => (true, s)
  | done, i :: rest, s =>
    let r := tryConsumeStep env i bytes s
    if r.1 then tryConsumeLoop env bytes (done ++ [i]) rest r.2
    else (false, updateAll done (-bytes) r.2)

/-- The part of `TryConsume` after the consumption-metric sampling
(mem-tracker.h:115-144). -/
def tryConsumeMain (env : Env) (t : Nat) (bytes : Int) (s : State) : Bool × State :=
  if bytes = 0 then (true, s)
  else tryConsumeLoop env bytes [] (env t).all_trackers s

/-- `MemTracker::TryConsume(bytes)` (mem-tracker.h:113-145): if
`consumption_metric_ != NULL`, first set the counter to the metric sample
(and, unlike `Consume`, continue); return accepted on `bytes == 0`;
otherwise walk `all_trackers_` with rollback. -/
def TryConsume (env : Env) (t : Nat) (bytes : Int) (s : State) : Bool × State :=
  let s1 := match (env t).consumption_metric with
            | some m => updAt s t (fun c => c.set m)
            | none => s
  tryConsumeMain env t bytes s1

/-- `MemTracker::CheckLimitExceeded` (mem-tracker.h:223):
`limit_ >= 0 && limit_ < consumption()`. -/
def CheckLimitExceeded (env : Env) (t : Nat) (s : State) : Bool :=
  decide (0 ≤ (env t).limit) && decide ((env t).limit < consumption s t)

/-- Result of `LimitExceeded`: the returned bool, the post-call state, and the
value published to `bytes_over_limit_metric_` (none when the metric is
unbound or the limit was not exceeded pre-GC). -/
structure LEResult where
  exceeded : Bool
  state : State
  published : Option Int

/-- `MemTracker::LimitExceeded` (mem-tracker.h:176-184): if
`CheckLimitExceeded()`, publish `consumption() - limit_` to
`bytes_over_limit_metric_` when bound and return `GcMemory(limit_)`;
otherwise return false. -/
def LimitExceeded (env : Env) (t : Nat) (s : State) : LEResult :=
  if CheckLimitExceeded env t s then
    let pub := if (env t).has_bytes_over_limit_metric
               then some (consumption s t - (env t).limit) else none
    let g := GcMemory env t (env t).limit s
    ⟨g.1, g.2, pub⟩
  else ⟨false, s, none⟩

/-- A sequence of balanced `consume(n)`/`release(n)` pairs, each pair issued
sequentially at an arbitrary tracker (spec P1). -/
def runBalancedPairs (env : Env) (ops : List (Nat × Int)) (s : State) : State :=
  ops.foldl (fun s p => Release env p.1 p.2 (Consume env p.1 p.2 s)) s

/-- Spec P2 well-formedness: every tracker's consumption is at or below its
peak. -/
def GoodPeak (s : State) : Prop :=
  ∀ j, consumption s j ≤ peak_consumption s j

/-- No tracker's peak decreased from `s` to `s'`. -/
def PeakMono (s s' : State) : Prop :=
  ∀ j, peak_consumption s j ≤ peak_consumption s' j

/-- A state transformer keeps `GoodPeak` and never decreases any peak. GC
callbacks are expected to satisfy this (they call `Release`). -/
def PreservesPeaks (op : State → State) : Prop :=
  ∀ s, (GoodPeak s → GoodPeak (op s)) ∧ PeakMono s (op s)

/-! ### Concrete environments and states used by the witnesses -/

/-- A single unlimited tracker with no GC callbacks and no metric. -/
def noopEnv : Env := fun _ => ⟨-1, [0], [], none, false⟩

/-- All counters at zero. -/
def zeroState : State := fun _ => ⟨0, 0⟩

/-- A single tracker whose external consumption metric reports 42. -/
def sourceEnv : Env := fun _ => ⟨-1, [0], [], some 42, false⟩

/-- A three-node chain A(id 0) → B(id 1) → C(id 2), no limits. -/
def chainEnv3 : Env := fun i =>
  if i = 0 then ⟨-1, [0, 1, 2], [], none, false⟩
  else if i = 1 then ⟨-1, [1, 2], [], none, false⟩
  else ⟨-1, [2], [], none, false⟩

/-- Chain child(id 0, limit 50) → root(id 1, limit 100), spec scenario 2. -/
def limitChainEnv : Env := fun i =>
  if i = 0 then ⟨50, [0, 1], [], none, false⟩
  else ⟨100, [1], [], none, false⟩

/-- Both counters already at 30 (after the first accepted `try_consume(30)`
of spec scenario 2). -/
def state30 : State := fun _ => ⟨30, 30⟩

/-- Single tracker (id 0), limit 100, no callbacks. -/
def gcBaseEnv : Env := fun _ => ⟨100, [0], [], none, false⟩

/-- Single tracker (id 0), limit 100, one GC callback that releases 50
bytes by calling `Release` on the tracker (spec scenario 4). -/
def gcEnv : Env := fun _ => ⟨100, [0], [Release gcBaseEnv 0 50], none, false⟩

/-- Counter at 110 (after `consume(60)`, `consume(50)`). -/
def state110 : State := fun _ => ⟨110, 110⟩

/-! ### Basic lemmas about the state primitives -/

theorem updAt_self (s : State) (i : Nat) (f : Counter → Counter) :
    updAt s i f i = f (s i) := by
  simp [updAt]

theorem updAt_ne (s : State) (i : Nat) (f : Counter → Counter) (j : Nat)
    (h : j ≠ i) : updAt s i f j = s j := by
  simp [updAt, h]

theorem updateAll_current (ids : List Nat) (d : Int) (s : State) (j : Nat) :
    (updateAll ids d s j).current = (s j).current + d * ids.count j := by
  induction ids generalizing s with
  | nil => simp [updateAll]
  | cons i ids ih =>
    simp only [updateAll, List.foldl_cons] at ih ⊢
    rw [ih]
    by_cases h : j = i
    · subst h
      rw [updAt_self, List.count_cons_self]
      simp only [Counter.update]
      push_cast
      ring
    · rw [updAt_ne _ _ _ _ h, List.count_cons_of_ne h]

theorem updateAll_not_mem (ids : List Nat) (d : Int) (s : State) (j : Nat)
    (h : j ∉ ids) : updateAll ids d s j = s j := by
  induction ids generalizing s with
  | nil => simp [updateAll]
  | cons i ids ih =>
    simp only [updateAll, List.foldl_cons] at ih ⊢
    have h2 : j ≠ i := fun hji => h (by rw [hji]; exact List.mem_cons_self _ _)
    rw [ih _ (fun hj => h (List.mem_cons_of_mem _ hj)), updAt_ne _ _ _ _ h2]

/-! ### Claim theorems -/

/-- C10: for a tracker without a consumption source, `Consume(0)` and
`Release(0)` change no counter at all, and `TryConsume(0)` returns true while
changing no counter — the functions return before the walk, so no limit is
consulted and no GC callback is invoked. -/
theorem zero_bytes_noop (env : Env) (t : Nat) (s : State)
    (hm : (env t).consumption_metric = none) :
    Consume env t 0 s = s ∧ Release env t 0 s = s ∧
      TryConsume env t 0 s = (true, s) := by
  refine ⟨?_, ?_, ?_⟩ <;>
    simp [Consume, Release, TryConsume, tryConsumeMain, hm]

/-- Witness for C10 at a concrete tracker and state. -/
theorem zero_bytes_noop_witness :
    Consume noopEnv 0 0 zeroState = zeroState ∧
      Release noopEnv 0 0 zeroState = zeroState ∧
      TryConsume noopEnv 0 0 zeroState = (true, zeroState) :=
  zero_bytes_noop noopEnv 0 zeroState rfl

/-- C6: on a tracker with a consumption source, `Consume` and `Release` set
the tracker's counter to the metric sample and return: the `bytes` argument
is irrelevant and no other tracker's counter changes. -/
theorem consumption_source_reconciles (env : Env) (t : Nat) (bytes : Int)
    (s : State) (m : Int) (hm : (env t).consumption_metric = some m) :
    Consume env t bytes s = updAt s t (fun c => c.set m) ∧
    Release env t bytes s = updAt s t (fun c => c.set m) ∧
    consumption (Consume env t bytes s) t = m ∧
    (∀ b', Consume env t bytes s = Consume env t b' s ∧
           Release env t bytes s = Release env t b' s) ∧
    (∀ j, j ≠ t → Consume env t bytes s j = s j ∧
                  Release env t bytes s j = s j) := by
  refine ⟨by simp [Consume, hm], by simp [Release, hm], ?_, ?_, ?_⟩
  · simp [Consume, hm, consumption, updAt, Counter.set]
  · intro b'
    constructor <;> simp [Consume, Release, hm]
  · intro j hj
    constructor <;> simp [Consume, Release, hm, updAt_ne _ _ _ _ hj]

/-- Witness for C6: a tracker whose external metric currently reports 42. -/
theorem consumption_source_reconciles_witness :
    consumption (Consume sourceEnv 0 7 zeroState) 0 = 42 ∧
      Release sourceEnv 0 7 zeroState 1 = zeroState 1 := by
  have h := consumption_source_reconciles sourceEnv 0 7 zeroState 42 rfl
  exact ⟨h.2.2.1, (h.2.2.2.2 1 (by decide)).2⟩

/-- C4: `Consume(bytes)` on a tracker without a consumption source adds
exactly `bytes` to the consumption of every tracker in its `all_trackers_`
chain and leaves every other tracker's consumption unchanged. -/
theorem consume_charges_exactly_chain (env : Env) (t : Nat) (bytes : Int)
    (s : State) (hm : (env t).consumption_metric = none)
    (hnd : (env t).all_trackers.Nodup) :
    ∀ j, consumption (Consume env t bytes s) j =
      consumption s j + (if j ∈ (env t).all_trackers then bytes else 0) := by
  intro j
  by_cases hb : bytes = 0
  · subst hb
    simp [Consume, hm, consumption]
  · simp only [Consume, hm, if_neg hb, consumption]
    rw [updateAll_current]
    by_cases hj : j ∈ (env t).all_trackers
    · rw [if_pos hj, List.count_eq_one_of_mem hnd hj]
      ring
    · rw [if_neg hj, List.count_eq_zero_of_not_mem hj]
      ring

/-- Witness for C4: `A.consume(5)` on the chain A → B → C raises C (the root)
by exactly 5 and leaves the unrelated tracker 3 untouched. -/
theorem consume_charges_exactly_chain_witness :
    consumption (Consume chainEnv3 0 5 zeroState) 2 = 5 ∧
      consumption (Consume chainEnv3 0 5 zeroState) 3 = 0 := by
  have h := consume_charges_exactly_chain chainEnv3 0 5 zeroState rfl (by decide)
  constructor
  · rw [h 2]; decide
  · rw [h 3]; decide

/-- One balanced `Consume`/`Release` pair leaves every current value where it
was (peaks may grow). -/
theorem consume_release_cancel (env : Env) (t : Nat) (n : Int) (s : State)
    (hm : (env t).consumption_metric = none) (j : Nat) :
    consumption (Release env t n (Consume env t n s)) j = consumption s j := by
  by_cases hn : n = 0
  · subst hn
    simp [Consume, Release, hm]
  · simp only [Consume, Release, hm, if_neg hn, consumption]
    rw [updateAll_current, updateAll_current]
    ring

/-- C7: after any sequence of sequential balanced `consume(nᵢ)`/`release(nᵢ)`
pairs issued at arbitrary trackers of a tree whose consumptions start at
zero (no consumption sources), every tracker's consumption is zero. -/
theorem balanced_pairs_restore_zero (env : Env) (ops : List (Nat × Int))
    (s : State) (hm : ∀ p ∈ ops, (env p.1).consumption_metric = none)
    (hz : ∀ j, consumption s j = 0) :
    ∀ j, consumption (runBalancedPairs env ops s) j = 0 := by
  induction ops generalizing s with
  | nil => simpa [runBalancedPairs] using hz
  | cons p ops ih =>
    intro j
    simp only [runBalancedPairs, List.foldl_cons] at ih ⊢
    refine ih _ (fun q hq => hm q (List.mem_cons_of_mem _ hq)) (fun j' => ?_) j
    rw [consume_release_cancel env p.1 p.2 s (hm p (List.mem_cons_self _ _)) j']
    exact hz j'

/-- Witness for C7: pairs (5 at A, 3 at B) on the chain A → B → C leave all
of A, B, C at zero. -/
theorem balanced_pairs_restore_zero_witness :
    consumption (runBalancedPairs chainEnv3 [(0, 5), (1, 3)] zeroState) 0 = 0 ∧
      consumption (runBalancedPairs chainEnv3 [(0, 5), (1, 3)] zeroState) 2 = 0 := by
  have h := balanced_pairs_restore_zero chainEnv3 [(0, 5), (1, 3)] zeroState
    (by intro p hp; fin_cases hp <;> rfl) (fun j => rfl)
  exact ⟨h 0, h 2⟩

/-! ### The rejection/rollback analysis of `TryConsume` (C1) -/

/-- If every callback of `fns` preserves the current value of every tracker
in `C`, so does the whole callback loop. -/
theorem runGcFunctions_preserves (C : List Nat) (t : Nat) (target : Int)
    (fns : List GcFn)
    (hf : ∀ f ∈ fns, ∀ s' j, j ∈ C → (f s' j).current = (s' j).current) :
    ∀ s j, j ∈ C → (runGcFunctions t target fns s j).current = (s j).current := by
  induction fns with
  | nil => intro s j _; rfl
  | cons f fns ih =>
    intro s j hj
    simp only [runGcFunctions]
    split
    · exact hf f (List.mem_cons_self _ _) s j hj
    · rw [ih (fun g hg => hf g (List.mem_cons_of_mem _ hg)) (f s) j hj,
          hf f (List.mem_cons_self _ _) s j hj]

/-- `GcMemory` at a node whose callbacks release nothing preserves every
current value in `C`. -/
theorem gcMemory_preserves (env : Env) (C : List Nat) (i : Nat) (target : Int)
    (hf : ∀ f ∈ (env i).gc_functions, ∀ s' j, j ∈ C →
          (f s' j).current = (s' j).current) :
    ∀ s j, j ∈ C → ((GcMemory env i target s).2 j).current = (s j).current := by
  intro s j hj
  simp only [GcMemory]
  split
  · rfl
  · exact runGcFunctions_preserves C i target (env i).gc_functions hf s j hj

/-- A successful `TryUpdate` applied `update` and respected the cap. -/
theorem tryUpdate_some (c c' : Counter) (d cap : Int)
    (h : c.tryUpdate d cap = some c') :
    c' = c.update d ∧ c.current + d ≤ cap := by
  simp only [Counter.tryUpdate] at h
  split at h
  · cases h
    exact ⟨rfl, by assumption⟩
  · cases h

/-- Effect of one walk step on current values, when the step node's callbacks
release nothing on `C`: a successful step adds `bytes` at the step node and
nothing elsewhere in `C`; a failed step changes no current value in `C`. -/
theorem tryConsumeStep_current (env : Env) (C : List Nat) (i : Nat)
    (bytes : Int) (s : State)
    (hf : ∀ f ∈ (env i).gc_functions, ∀ s' j, j ∈ C →
          (f s' j).current = (s' j).current) :
    ∀ j ∈ C, ((tryConsumeStep env i bytes s).2 j).current =
      (s j).current +
        (if (tryConsumeStep env i bytes s).1 = true ∧ j = i then bytes else 0) := by
  intro j hj
  have hgcpres := gcMemory_preserves env C i ((env i).limit - bytes) hf s
  by_cases hlim : (env i).limit < 0
  · -- unlimited: unconditional update
    simp only [tryConsumeStep, if_pos hlim]
    by_cases hji : j = i
    · subst hji; simp [updAt_self, Counter.update]
    · simp [updAt_ne _ _ _ _ hji, hji]
  · simp only [tryConsumeStep, if_neg hlim]
    cases h1 : (s i).tryUpdate bytes (env i).limit with
    | some c =>
      -- first TryUpdate succeeded
      obtain ⟨hc, _⟩ := tryUpdate_some _ _ _ _ h1
      by_cases hji : j = i
      · subst hji
        simp [updAt_self, hc, Counter.update]
      · simp [updAt_ne _ _ _ _ hji, hji]
    | none =>
      -- first TryUpdate failed: GC then one retry
      dsimp only
      split
      · -- GC reports still over target: step fails, state is the GC state
        simp [hgcpres j hj]
      · cases h2 : ((GcMemory env i ((env i).limit - bytes) s).2 i).tryUpdate
            bytes (env i).limit with
        | some c' =>
          obtain ⟨hc', _⟩ := tryUpdate_some _ _ _ _ h2
          by_cases hji : j = i
          · subst hji
            simp [updAt_self, hc', Counter.update, hgcpres j hj]
          · simp [updAt_ne _ _ _ _ hji, hji, hgcpres j hj]
        | none =>
          simp [hgcpres j hj]

/-- The rejection branch of the walk restores every current value in `C`,
given the invariant that `s` differs from `s0` on `C` exactly by the charges
of the already-succeeded prefix `done`. -/
theorem tryConsumeLoop_reject_currents (env : Env) (C : List Nat) (bytes : Int)
    (hf : ∀ i ∈ C, ∀ f ∈ (env i).gc_functions, ∀ s' j, j ∈ C →
          (f s' j).current = (s' j).current) :
    ∀ (rest done : List Nat) (s s0 : State), rest ⊆ C →
      (∀ j ∈ C, (s j).current = (s0 j).current + bytes * done.count j) →
      ∀ s', tryConsumeLoop env bytes done rest s = (false, s') →
      ∀ j ∈ C, (s' j).current = (s0 j).current := by
  intro rest
  induction rest with
  | nil => intro done s s0 _ _ s' h; cases h
  | cons i rest ih =>
    intro done s s0 hsub hinv s' hloop j hj
    have hiC : i ∈ C := hsub (List.mem_cons_self _ _)
    have hstep := tryConsumeStep_current env C i bytes s (hf i hiC)
    simp only [tryConsumeLoop] at hloop
    split at hloop
    · -- step succeeded: recurse with the invariant extended by i
      refine ih (done ++ [i]) _ s0 (fun x hx => hsub (List.mem_cons_of_mem _ hx))
        ?_ s' hloop j hj
      intro j' hj'
      rw [hstep j' hj', hinv j' hj', List.count_append]
      by_cases hji : j' = i
      · subst hji
        rename_i hok
        rw [if_pos ⟨hok, rfl⟩, List.count_cons_self, List.count_nil]
        push_cast
        ring
      · rw [if_neg (fun hand => hji hand.2)]
        have : List.count j' [i] = 0 :=
          List.count_eq_zero_of_not_mem (by simpa using hji)
        rw [this]
        push_cast
        ring
    · -- step failed: roll back the prefix
      cases hloop
      rw [updateAll_current]
      rename_i hfail
      have hnot : ¬((tryConsumeStep env i bytes s).1 = true ∧ j = i) := by
        intro hand
        exact hfail hand.1
      rw [hstep j hj, if_neg hnot, hinv j hj]
      ring

/-- C1: all-or-nothing admission. If no tracker in the chain has a
consumption source and no GC callback registered on any tracker in the chain
changes the current value of any chain tracker, then a rejected
`TryConsume(bytes)` leaves every tracker in the chain with exactly the
consumption it had before the call. -/
theorem tryconsume_reject_all_or_nothing (env : Env) (t : Nat) (bytes : Int)
    (s : State) (hm : (env t).consumption_metric = none)
    (hf : ∀ i ∈ (env t).all_trackers, ∀ f ∈ (env i).gc_functions,
          ∀ s' j, j ∈ (env t).all_trackers → (f s' j).current = (s' j).current)
    (hrej : (TryConsume env t bytes s).1 = false) :
    ∀ j ∈ (env t).all_trackers,
      consumption (TryConsume env t bytes s).2 j = consumption s j := by
  intro j hj
  simp only [TryConsume, tryConsumeMain, hm] at hrej ⊢
  by_cases hb : bytes = 0
  · rw [if_pos hb] at hrej
    cases hrej
  · rw [if_neg hb] at hrej ⊢
    rcases hres : tryConsumeLoop env bytes [] (env t).all_trackers s with ⟨b, s'⟩
    cases b
    · exact tryConsumeLoop_reject_currents env (env t).all_trackers bytes hf
        (env t).all_trackers [] s s (fun x hx => hx)
        (by intro j' _; simp) s' hres j hj
    · rw [hres] at hrej
      simp at hrej

/-- Witness for C1: spec scenario 2. With child(limit 50) → root(limit 100)
both already at 30, `try_consume(30)` from the child is rejected and both
counters are unchanged. -/
theorem tryconsume_reject_all_or_nothing_witness :
    consumption (TryConsume limitChainEnv 0 30 state30).2 0 =
        consumption state30 0 ∧
      consumption (TryConsume limitChainEnv 0 30 state30).2 1 =
        consumption state30 1 ∧
      (TryConsume limitChainEnv 0 30 state30).1 = false := by
  have h := tryconsume_reject_all_or_nothing limitChainEnv 0 30 state30 rfl
    (by intro i _ f hfmem; simp [limitChainEnv] at hfmem; split at hfmem <;>
        simp at hfmem)
    (by decide)
  exact ⟨h 0 (by decide), h 1 (by decide), by decide⟩

/-! ### Acceptance analysis of `TryConsume` (C2, C9) -/

/-- With no registered callbacks, `GcMemory` leaves the state unchanged. -/
theorem gcMemory_state_no_fns (env : Env) (i : Nat) (target : Int) (s : State)
    (hgc : (env i).gc_functions = []) :
    (GcMemory env i target s).2 = s := by
  simp only [GcMemory, hgc, runGcFunctions]
  split <;> rfl

/-- A step at a node with no callbacks touches no other tracker's counter. -/
theorem tryConsumeStep_frame (env : Env) (i : Nat) (bytes : Int) (s : State)
    (hgc : (env i).gc_functions = []) :
    ∀ j, j ≠ i → (tryConsumeStep env i bytes s).2 j = s j := by
  intro j hji
  simp only [tryConsumeStep]
  split
  · show updAt s i (fun c => c.update bytes) j = s j
    exact updAt_ne _ _ _ _ hji
  · cases h1 : (s i).tryUpdate bytes (env i).limit with
    | some c =>
      show updAt s i (fun _ => c) j = s j
      exact updAt_ne _ _ _ _ hji
    | none =>
      dsimp only
      rw [gcMemory_state_no_fns env i ((env i).limit - bytes) s hgc, h1]
      split
      · rfl
      · rfl

/-- A successful walk prefix over nodes with no callbacks leaves every
tracker outside `rest` untouched. -/
theorem tryConsumeLoop_accept_frame (env : Env) (bytes : Int) :
    ∀ (rest done : List Nat) (s s' : State),
      (∀ i ∈ rest, (env i).gc_functions = []) →
      tryConsumeLoop env bytes done rest s = (true, s') →
      ∀ j, j ∉ rest → s' j = s j := by
  intro rest
  induction rest with
  | nil =>
    intro done s s' _ h j _
    simp only [tryConsumeLoop, Prod.mk.injEq] at h
    rw [← h.2]
  | cons i rest ih =>
    intro done s s' hgc hloop j hj
    simp only [tryConsumeLoop] at hloop
    split at hloop
    · have hji : j ≠ i := fun h => hj (by rw [h]; exact List.mem_cons_self _ _)
      have hrest : j ∉ rest := fun h => hj (List.mem_cons_of_mem _ h)
      rw [ih (done ++ [i]) _ s'
            (fun x hx => hgc x (List.mem_cons_of_mem _ hx)) hloop j hrest,
          tryConsumeStep_frame env i bytes s (hgc i (List.mem_cons_self _ _))
            j hji]
    · simp at hloop

/-- A successful step at a limited node leaves that node's consumption at or
below its limit: the only success paths apply `TryUpdate(bytes, limit_)`. -/
theorem tryConsumeStep_success_limited (env : Env) (i : Nat) (bytes : Int)
    (s : State) (hlim : ¬(env i).limit < 0)
    (hok : (tryConsumeStep env i bytes s).1 = true) :
    ((tryConsumeStep env i bytes s).2 i).current ≤ (env i).limit := by
  simp only [tryConsumeStep, if_neg hlim] at hok ⊢
  cases h1 : (s i).tryUpdate bytes (env i).limit with
  | some c =>
    obtain ⟨hc, hcap⟩ := tryUpdate_some _ _ _ _ h1
    dsimp only
    rw [updAt_self, hc]
    exact hcap
  | none =>
    rw [h1] at hok
    dsimp only at hok ⊢
    by_cases hg : (GcMemory env i ((env i).limit - bytes) s).1 = true
    · rw [if_pos hg] at hok
      simp at hok
    · rw [if_neg hg] at hok ⊢
      cases h2 : ((GcMemory env i ((env i).limit - bytes) s).2 i).tryUpdate
          bytes (env i).limit with
      | some c' =>
        obtain ⟨hc', hcap'⟩ := tryUpdate_some _ _ _ _ h2
        dsimp only
        rw [updAt_self, hc']
        exact hcap'
      | none =>
        rw [h2] at hok
        simp at hok

/-- An accepted walk over pairwise-distinct nodes with no callbacks leaves
every limited node at or below its limit. -/
theorem tryConsumeLoop_accept_limits (env : Env) (bytes : Int) :
    ∀ (rest done : List Nat) (s s' : State), rest.Nodup →
      (∀ i ∈ rest, (env i).gc_functions = []) →
      tryConsumeLoop env bytes done rest s = (true, s') →
      ∀ j ∈ rest, ¬(env j).limit < 0 → (s' j).current ≤ (env j).limit := by
  intro rest
  induction rest with
  | nil => intro done s s' _ _ _ j hj; exact absurd hj (List.not_mem_nil j)
  | cons i rest ih =>
    intro done s s' hnd hgc hloop j hj hjlim
    simp only [tryConsumeLoop] at hloop
    split at hloop
    · rename_i hok
      rcases List.mem_cons.mp hj with hji | hjrest
      · subst hji
        have hnin : j ∉ rest := (List.nodup_cons.mp hnd).1
        rw [tryConsumeLoop_accept_frame env bytes rest (done ++ [j]) _ s'
              (fun x hx => hgc x (List.mem_cons_of_mem _ hx)) hloop j hnin]
        exact tryConsumeStep_success_limited env j bytes s hjlim hok
      · exact ih (done ++ [i]) _ s' (List.nodup_cons.mp hnd).2
          (fun x hx => hgc x (List.mem_cons_of_mem _ hx)) hloop j hjrest hjlim
    · simp at hloop

/-- C2: admission keeps limits. On a freshly created chain (pairwise-distinct
nodes, zero consumptions, no callbacks registered yet, no consumption
source), an accepted `try_consume(bytes)` leaves every limited node of the
chain with `consumption() ≤ limit`. -/
theorem tryconsume_accept_respects_limits (env : Env) (t : Nat) (bytes : Int)
    (s : State) (hm : (env t).consumption_metric = none)
    (hnd : (env t).all_trackers.Nodup)
    (hgc : ∀ i ∈ (env t).all_trackers, (env i).gc_functions = [])
    (hz : ∀ j ∈ (env t).all_trackers, consumption s j = 0)
    (hacc : (TryConsume env t bytes s).1 = true) :
    ∀ j ∈ (env t).all_trackers, 0 ≤ (env j).limit →
      consumption (TryConsume env t bytes s).2 j ≤ (env j).limit := by
  intro j hj hjlim
  simp only [TryConsume, tryConsumeMain, hm] at hacc ⊢
  by_cases hb : bytes = 0
  · rw [if_pos hb]
    show consumption s j ≤ _
    rw [hz j hj]
    exact hjlim
  · rw [if_neg hb] at hacc ⊢
    rcases hres : tryConsumeLoop env bytes [] (env t).all_trackers s with ⟨b, s'⟩
    cases b
    · rw [hres] at hacc
      simp at hacc
    · exact tryConsumeLoop_accept_limits env bytes (env t).all_trackers [] s s'
        hnd hgc hres j hj (not_lt.mpr hjlim)

/-- Witness for C2: `try_consume(30)` from the child of the fresh chain
child(limit 50) → root(limit 100) is accepted and leaves both nodes within
their limits. -/
theorem tryconsume_accept_respects_limits_witness :
    consumption (TryConsume limitChainEnv 0 30 zeroState).2 0 ≤
        (limitChainEnv 0).limit ∧
      consumption (TryConsume limitChainEnv 0 30 zeroState).2 1 ≤
        (limitChainEnv 1).limit := by
  have h := tryconsume_accept_respects_limits limitChainEnv 0 30 zeroState rfl
    (by decide) (by intro i hi; fin_cases hi <;> rfl) (fun j _ => rfl)
    (by decide)
  exact ⟨h 0 (by decide) (by decide), h 1 (by decide) (by decide)⟩

/-- C9: on a tracker with a consumption source, `TryConsume` samples the
metric into the counter and then — unlike `Consume` and `Release` — still
performs the full admission walk; when it returns accepted, the tracker ends
at the freshly sampled value plus `bytes`. -/
theorem tryconsume_source_still_walks (env : Env) (t : Nat) (bytes : Int)
    (s : State) (m : Int) (rest : List Nat)
    (hm : (env t).consumption_metric = some m) :
    TryConsume env t bytes s =
      tryConsumeMain env t bytes (updAt s t (fun c => c.set m)) ∧
    ((env t).all_trackers = t :: rest → (t :: rest).Nodup →
      (∀ i ∈ t :: rest, (env i).gc_functions = []) →
      (TryConsume env t bytes s).1 = true →
      consumption (TryConsume env t bytes s).2 t = m + bytes) := by
  constructor
  · simp [TryConsume, hm]
  · intro hchain hnd hgc hacc
    have hgct : (env t).gc_functions = [] := hgc t (List.mem_cons_self _ _)
    simp only [TryConsume, hm] at hacc ⊢
    have hs1t : (updAt s t (fun c => c.set m) t).current = m := by
      rw [updAt_self]; rfl
    simp only [tryConsumeMain, hchain] at hacc ⊢
    by_cases hb : bytes = 0
    · rw [if_pos hb] at hacc ⊢
      subst hb
      simpa [consumption] using hs1t
    · rw [if_neg hb] at hacc ⊢
      simp only [tryConsumeLoop] at hacc ⊢
      by_cases hok :
          (tryConsumeStep env t bytes (updAt s t (fun c => c.set m))).1 = true
      · rw [if_pos hok] at hacc ⊢
        simp only [List.nil_append] at hacc ⊢
        rcases hres : tryConsumeLoop env bytes [t] rest
            (tryConsumeStep env t bytes (updAt s t (fun c => c.set m))).2
          with ⟨b, s'⟩
        rw [hres] at hacc
        cases b
        · simp at hacc
        · have hnin : t ∉ rest := (List.nodup_cons.mp hnd).1
          have hframe := tryConsumeLoop_accept_frame env bytes rest [t]
            _ s' (fun x hx => hgc x (List.mem_cons_of_mem _ hx)) hres t hnin
          have hstep := tryConsumeStep_current env [t] t bytes
            (updAt s t (fun c => c.set m))
            (by rw [hgct]; intro f hf; exact absurd hf (List.not_mem_nil f))
            t (List.mem_cons_self _ _)
          rw [if_pos ⟨hok, rfl⟩] at hstep
          show (s' t).current = m + bytes
          rw [hframe, hstep, hs1t]
      · rw [if_neg hok] at hacc
        simp at hacc

/-- Witness for C9: the process-style tracker with metric sample 42 accepts
`try_consume(7)` and ends at 42 + 7, not at 42 (as `Consume` would) nor at
the previous counter value. -/
theorem tryconsume_source_still_walks_witness :
    TryConsume sourceEnv 0 7 zeroState =
      tryConsumeMain sourceEnv 0 7 (updAt zeroState 0 (fun c => c.set 42)) ∧
      consumption (TryConsume sourceEnv 0 7 zeroState).2 0 = 42 + 7 := by
  have h := tryconsume_source_still_walks sourceEnv 0 7 zeroState 42 [] rfl
  exact ⟨h.1, h.2 rfl (by decide) (by intro i hi; fin_cases hi; rfl)
    (by decide)⟩

/-! ### Per-node walk step contract (C3) and `LimitExceeded` contract (C5) -/

/-- C3: the `TryConsume` walk step. An unlimited node takes the charge
unconditionally. At a limited node whose `TryUpdate(bytes, limit_)` fails,
`GcMemory(limit_ - bytes)` runs and `TryUpdate` is retried exactly once: the
step fails (stopping the walk, which leads to rollback) iff `GcMemory`
reports consumption still above the target or the single retry fails, and a
failed step leaves the state exactly as `GcMemory` left it. -/
theorem tryconsume_walk_step_spec (env : Env) (i : Nat) (bytes : Int)
    (s : State) :
    ((env i).limit < 0 →
      tryConsumeStep env i bytes s =
        (true, updAt s i (fun c => c.update bytes))) ∧
    (¬(env i).limit < 0 → (s i).tryUpdate bytes (env i).limit = none →
      (((tryConsumeStep env i bytes s).1 = false ↔
          (GcMemory env i ((env i).limit - bytes) s).1 = true ∨
          ((GcMemory env i ((env i).limit - bytes) s).2 i).tryUpdate bytes
            (env i).limit = none) ∧
        ((tryConsumeStep env i bytes s).1 = false →
          (tryConsumeStep env i bytes s).2 =
            (GcMemory env i ((env i).limit - bytes) s).2))) := by
  constructor
  · intro hlim
    simp [tryConsumeStep, if_pos hlim]
  · intro hlim h1
    simp only [tryConsumeStep, if_neg hlim, h1]
    by_cases hg : (GcMemory env i ((env i).limit - bytes) s).1 = true
    · rw [if_pos hg]
      simp [hg]
    · rw [if_neg hg]
      cases h2 : ((GcMemory env i ((env i).limit - bytes) s).2 i).tryUpdate
          bytes (env i).limit with
      | some c' => simp [hg, h2]
      | none => simp [h2]

/-- Witness for C3: child node of spec scenario 2 at consumption 30,
`try_consume(30)` against limit 50: the first `TryUpdate` fails, the GC pass
(no callbacks) reports consumption still above `50 - 30 = 20`, so the step
fails with the state exactly as `GcMemory` left it. -/
theorem tryconsume_walk_step_spec_witness :
    (tryConsumeStep limitChainEnv 0 30 state30).1 = false ∧
      (tryConsumeStep limitChainEnv 0 30 state30).2 =
        (GcMemory limitChainEnv 0 ((limitChainEnv 0).limit - 30) state30).2 := by
  have h := (tryconsume_walk_step_spec limitChainEnv 0 30 state30).2
    (by decide) (by decide)
  have hfail := h.1.mpr (Or.inl (by decide))
  exact ⟨hfail, h.2 hfail⟩

/-- C5: the `LimitExceeded` contract. An unlimited tracker reports false and
changes nothing. A limited tracker whose consumption exceeds the limit
publishes bytes-over-limit to the bound metric (when present), runs
`GcMemory` with the limit as target, and returns true iff consumption still
exceeds the limit afterwards. -/
theorem limit_exceeded_contract (env : Env) (t : Nat) (s : State) :
    ((env t).limit < 0 → LimitExceeded env t s = ⟨false, s, none⟩) ∧
    (0 ≤ (env t).limit → (env t).limit < consumption s t →
      (LimitExceeded env t s).published =
        (if (env t).has_bytes_over_limit_metric
         then some (consumption s t - (env t).limit) else none) ∧
      (LimitExceeded env t s).state = (GcMemory env t (env t).limit s).2 ∧
      ((LimitExceeded env t s).exceeded = true ↔
        (env t).limit < consumption (LimitExceeded env t s).state t)) := by
  constructor
  · intro h
    have h0 : ¬(0 : Int) ≤ (env t).limit := not_le.mpr h
    simp [LimitExceeded, CheckLimitExceeded, h0]
  · intro h1 h2
    have hchk : CheckLimitExceeded env t s = true := by
      simp [CheckLimitExceeded, h1, h2]
    have hgt : ¬(s t).current ≤ (env t).limit := not_le.mpr h2
    refine ⟨?_, ?_, ?_⟩
    · simp [LimitExceeded, hchk]
    · simp [LimitExceeded, hchk]
    · simp only [LimitExceeded, hchk, if_true]
      simp only [GcMemory, if_neg hgt]
      simp [consumption]

/-- Witness for C5: spec scenario 4. Single tracker, limit 100, one GC
callback releasing 50, consumption 110: `limit_exceeded()` runs the
callback, consumption drops to 60, and the call returns false. -/
theorem limit_exceeded_contract_witness :
    (LimitExceeded gcEnv 0 state110).exceeded = false ∧
      consumption (LimitExceeded gcEnv 0 state110).state 0 = 60 := by
  have h := (limit_exceeded_contract gcEnv 0 state110).2 (by decide) (by decide)
  refine ⟨?_, by decide⟩
  cases hex : (LimitExceeded gcEnv 0 state110).exceeded
  · rfl
  · exact absurd (h.2.2.mp hex) (by decide)

/-! ### Peak watermark invariants (C8) -/

theorem counter_update_good (c : Counter) (d : Int) :
    (c.update d).current ≤ (c.update d).peak :=
  le_max_right _ _

theorem counter_update_mono (c : Counter) (d : Int) :
    c.peak ≤ (c.update d).peak :=
  le_max_left _ _

theorem counter_set_good (c : Counter) (v : Int) :
    (c.set v).current ≤ (c.set v).peak :=
  le_max_right _ _

theorem counter_set_mono (c : Counter) (v : Int) :
    c.peak ≤ (c.set v).peak :=
  le_max_left _ _

/-- Pointwise form: updating one counter with a well-behaved result keeps
the peak invariants. -/
theorem preserves_updAt_pt (s : State) (i : Nat) (f : Counter → Counter)
    (h1 : (f (s i)).current ≤ (f (s i)).peak)
    (h2 : (s i).peak ≤ (f (s i)).peak) :
    (GoodPeak s → GoodPeak (updAt s i f)) ∧ PeakMono s (updAt s i f) := by
  constructor
  · intro hs j
    by_cases hji : j = i
    · subst hji
      show (updAt s j f j).current ≤ (updAt s j f j).peak
      rw [updAt_self]
      exact h1
    · show (updAt s i f j).current ≤ (updAt s i f j).peak
      rw [updAt_ne _ _ _ _ hji]
      exact hs j
  · intro j
    by_cases hji : j = i
    · subst hji
      show (s j).peak ≤ (updAt s j f j).peak
      rw [updAt_self]
      exact h2
    · show (s j).peak ≤ (updAt s i f j).peak
      rw [updAt_ne _ _ _ _ hji]

theorem preserves_id : PreservesPeaks (fun s => s) :=
  fun _ => ⟨id, fun _ => le_rfl⟩

theorem preserves_updateAll (ids : List Nat) (d : Int) :
    PreservesPeaks (updateAll ids d) := by
  induction ids with
  | nil => exact fun _ => ⟨id, fun _ => le_rfl⟩
  | cons i ids ih =>
    intro s
    have hstep := preserves_updAt_pt s i (fun c => c.update d)
      (counter_update_good _ _) (counter_update_mono _ _)
    have hrest := ih (updAt s i (fun c => c.update d))
    exact ⟨fun hs => hrest.1 (hstep.1 hs),
      fun j => le_trans (hstep.2 j) (hrest.2 j)⟩

theorem preserves_runGcFunctions (t : Nat) (target : Int) (fns : List GcFn)
    (hf : ∀ f ∈ fns, PreservesPeaks f) :
    PreservesPeaks (runGcFunctions t target fns) := by
  induction fns with
  | nil => exact fun _ => ⟨id, fun _ => le_rfl⟩
  | cons f fns ih =>
    intro s
    have hfp := hf f (List.mem_cons_self _ _) s
    have hrest := ih (fun g hg => hf g (List.mem_cons_of_mem _ hg)) (f s)
    simp only [runGcFunctions]
    split
    · exact hfp
    · exact ⟨fun hs => hrest.1 (hfp.1 hs),
        fun j => le_trans (hfp.2 j) (hrest.2 j)⟩

theorem preserves_gcMemory (env : Env) (i : Nat) (target : Int)
    (hf : ∀ f ∈ (env i).gc_functions, PreservesPeaks f) :
    PreservesPeaks (fun s => (GcMemory env i target s).2) := by
  intro s
  simp only [GcMemory]
  split
  · exact ⟨id, fun _ => le_rfl⟩
  · exact preserves_runGcFunctions i target (env i).gc_functions hf s

theorem preserves_tryConsumeStep (env : Env) (i : Nat) (bytes : Int)
    (hf : ∀ f ∈ (env i).gc_functions, PreservesPeaks f) :
    PreservesPeaks (fun s => (tryConsumeStep env i bytes s).2) := by
  intro s
  simp only [tryConsumeStep]
  split
  · exact preserves_updAt_pt s i (fun c => c.update bytes)
      (counter_update_good _ _) (counter_update_mono _ _)
  · cases h1 : (s i).tryUpdate bytes (env i).limit with
    | some c =>
      obtain ⟨hc, -⟩ := tryUpdate_some _ _ _ _ h1
      exact preserves_updAt_pt s i (fun _ => c)
        (by rw [hc]; exact counter_update_good _ _)
        (by rw [hc]; exact counter_update_mono _ _)
    | none =>
      dsimp only
      have hg := preserves_gcMemory env i ((env i).limit - bytes) hf s
      split
      · exact hg
      · cases h2 : ((GcMemory env i ((env i).limit - bytes) s).2 i).tryUpdate
            bytes (env i).limit with
        | some c' =>
          obtain ⟨hc', -⟩ := tryUpdate_some _ _ _ _ h2
          have hupd := preserves_updAt_pt
            ((GcMemory env i ((env i).limit - bytes) s).2) i (fun _ => c')
            (by rw [hc']; exact counter_update_good _ _)
            (by rw [hc']; exact counter_update_mono _ _)
          exact ⟨fun hs => hupd.1 (hg.1 hs),
            fun j => le_trans (hg.2 j) (hupd.2 j)⟩
        | none => exact hg

theorem preserves_tryConsumeLoop (env : Env) (bytes : Int)
    (hgc : ∀ i, ∀ f ∈ (env i).gc_functions, PreservesPeaks f) :
    ∀ (rest done : List Nat) (s : State),
      (GoodPeak s → GoodPeak (tryConsumeLoop env bytes done rest s).2) ∧
      PeakMono s (tryConsumeLoop env bytes done rest s).2 := by
  intro rest
  induction rest with
  | nil => intro done s; exact ⟨id, fun _ => le_rfl⟩
  | cons i rest ih =>
    intro done s
    have hstep := preserves_tryConsumeStep env i bytes (hgc i) s
    simp only [tryConsumeLoop]
    split
    · have hrest := ih (done ++ [i]) (tryConsumeStep env i bytes s).2
      exact ⟨fun hs => hrest.1 (hstep.1 hs),
        fun j => le_trans (hstep.2 j) (hrest.2 j)⟩
    · have hroll := preserves_updateAll done (-bytes)
        (tryConsumeStep env i bytes s).2
      exact ⟨fun hs => hroll.1 (hstep.1 hs),
        fun j => le_trans (hstep.2 j) (hroll.2 j)⟩

theorem preserves_consume (env : Env) (t : Nat) (bytes : Int) :
    PreservesPeaks (Consume env t bytes) := by
  intro s
  simp only [Consume]
  split
  · exact preserves_updAt_pt s t _ (counter_set_good _ _) (counter_set_mono _ _)
  · split
    · exact ⟨id, fun _ => le_rfl⟩
    · exact preserves_updateAll _ bytes s

theorem preserves_release (env : Env) (t : Nat) (bytes : Int) :
    PreservesPeaks (Release env t bytes) := by
  intro s
  simp only [Release]
  split
  · exact preserves_updAt_pt s t _ (counter_set_good _ _) (counter_set_mono _ _)
  · split
    · exact ⟨id, fun _ => le_rfl⟩
    · exact preserves_updateAll _ (-bytes) s

theorem preserves_tryConsume (env : Env) (t : Nat) (bytes : Int)
    (hgc : ∀ i, ∀ f ∈ (env i).gc_functions, PreservesPeaks f) :
    ∀ s, (GoodPeak s → GoodPeak (TryConsume env t bytes s).2) ∧
      PeakMono s (TryConsume env t bytes s).2 := by
  intro s
  simp only [TryConsume, tryConsumeMain]
  cases hm : (env t).consumption_metric with
  | none =>
    dsimp only
    split
    · exact ⟨id, fun _ => le_rfl⟩
    · exact preserves_tryConsumeLoop env bytes hgc (env t).all_trackers [] s
  | some m =>
    have hsamp := preserves_updAt_pt s t (fun c => c.set m)
      (counter_set_good _ _) (counter_set_mono _ _)
    dsimp only
    split
    · exact hsamp
    · have hloop := preserves_tryConsumeLoop env bytes hgc
        (env t).all_trackers [] (updAt s t (fun c => c.set m))
      exact ⟨fun hs => hloop.1 (hsamp.1 hs),
        fun j => le_trans (hsamp.2 j) (hloop.2 j)⟩

theorem preserves_limitExceeded (env : Env) (t : Nat)
    (hgc : ∀ i, ∀ f ∈ (env i).gc_functions, PreservesPeaks f) :
    ∀ s, (GoodPeak s → GoodPeak (LimitExceeded env t s).state) ∧
      PeakMono s (LimitExceeded env t s).state := by
  intro s
  simp only [LimitExceeded]
  split
  · exact preserves_gcMemory env t (env t).limit (hgc t) s
  · exact ⟨id, fun _ => le_rfl⟩

/-- C8: the peak watermark invariant. For every tracker, after each of
`Consume`, `Release`, `TryConsume` (accepted or rejected) and
`LimitExceeded` — assuming each registered GC callback itself keeps the
invariants, as callbacks built from `Release` do — `peak_consumption() ≥
consumption()` holds and no tracker's `peak_consumption()` decreases. In
particular the rollback of a rejected `TryConsume` (plain `update(-bytes)`)
never decrements the peak of a node that briefly accepted the charge. -/
theorem peak_watermark_invariant (env : Env) (t : Nat) (bytes : Int)
    (s : State) (hgc : ∀ i, ∀ f ∈ (env i).gc_functions, PreservesPeaks f)
    (hs : ∀ j, consumption s j ≤ peak_consumption s j) :
    ((∀ j, consumption (Consume env t bytes s) j ≤
        peak_consumption (Consume env t bytes s) j) ∧
      (∀ j, peak_consumption s j ≤ peak_consumption (Consume env t bytes s) j)) ∧
    ((∀ j, consumption (Release env t bytes s) j ≤
        peak_consumption (Release env t bytes s) j) ∧
      (∀ j, peak_consumption s j ≤ peak_consumption (Release env t bytes s) j)) ∧
    ((∀ j, consumption (TryConsume env t bytes s).2 j ≤
        peak_consumption (TryConsume env t bytes s).2 j) ∧
      (∀ j, peak_consumption s j ≤
        peak_consumption (TryConsume env t bytes s).2 j)) ∧
    ((∀ j, consumption (LimitExceeded env t s).state j ≤
        peak_consumption (LimitExceeded env t s).state j) ∧
      (∀ j, peak_consumption s j ≤
        peak_consumption (LimitExceeded env t s).state j)) := by
  refine ⟨⟨?_, ?_⟩, ⟨?_, ?_⟩, ⟨?_, ?_⟩, ⟨?_, ?_⟩⟩
  · exact (preserves_consume env t bytes s).1 hs
  · exact (preserves_consume env t bytes s).2
  · exact (preserves_release env t bytes s).1 hs
  · exact (preserves_release env t bytes s).2
  · exact (preserves_tryConsume env t bytes hgc s).1 hs
  · exact (preserves_tryConsume env t bytes hgc s).2
  · exact (preserves_limitExceeded env t hgc s).1 hs
  · exact (preserves_limitExceeded env t hgc s).2

/-- Witness for C8 on the GC-equipped single tracker at consumption 110:
after `LimitExceeded` (which runs the releasing callback) the invariant
holds, and a rejected-or-accepted `TryConsume(25)` never lowers the peak. -/
theorem peak_watermark_invariant_witness :
    consumption (LimitExceeded gcEnv 0 state110).state 0 ≤
        peak_consumption (LimitExceeded gcEnv 0 state110).state 0 ∧
      peak_consumption state110 0 ≤
        peak_consumption (TryConsume gcEnv 0 25 state110).2 0 := by
  have h := peak_watermark_invariant gcEnv 0 25 state110
    (by
      intro i f hfm
      have : f = Release gcBaseEnv 0 50 := by
        simpa [gcEnv] using hfm
      rw [this]
      exact preserves_release gcBaseEnv 0 50)
    (fun _ => le_rfl)
  exact ⟨h.2.2.2.1 0, h.2.2.1.2 0⟩

end Impala
